import Mathlib

/-!
Verification of the event-log engine in src/cli/logPanel.py (the log panel of
the arm terminal dashboard).

The Python source is shallowly embedded below.  Conventions used throughout:

* Unix timestamps, calendar days and durations are `Int` (the source mixes
  Python ints and floats; every claim under study is about whole-second or
  whole-millisecond quantities).  `Int` division `/` in Lean is Euclidean,
  which for the positive divisors used here (86400, 3600, ...) is floor
  division, matching Python's behaviour on the nonnegative values involved.
* `time.mktime` / `time.localtime` are embedded as exact civil-calendar
  conversions (`daysFromCivil` / `civilFromDays`, the standard era-based
  algorithms).  The local-zone offset `tz` is the module's TIMEZONE_OFFSET
  (seconds west of UTC, daylight-saving already folded in, exactly as the
  source pins tm_isdst to the current local flag before calling mktime).
* Wall-clock sampling inside the deduplicator (`time.time()` compared against
  DEDUPLICATION_TIMEOUT) is embedded as a timeout oracle `Nat → Bool` telling
  whether the budget check fires on a given loop iteration.
* Module-level mutable caches (CACHED_DAYBREAKS_*, CACHED_DUPLICATES_*) are
  embedded by explicit state passing: each cached function takes and returns
  its cache record.  Python compares cache keys with `==`, which on lists of
  `LogEntry` objects (no custom `__eq__`) is element-wise identity; the
  embedding uses structural equality, which is sound here because every cached
  value is a pure function of the key's field contents.
* Exceptions that the source would let escape (`strptime` raising ValueError,
  the RUNLEVEL_EVENT_COLOR KeyError on a TRACE line) are embedded as `none`
  of an `Option` result.
-/

/-! ## Small string helpers (Python `str.split`, `in`, `startswith`, ...) -/

/-- Python `str.split()` with no argument: split on runs of whitespace,
dropping empty fields.  Worker over the character list. -/
def pySplitAux : List Char → List Char → List String
  | cur, [] => if cur.isEmpty then [] else [String.mk cur.reverse]
  | cur, c :: rest =>
      if c.isWhitespace then
        if cur.isEmpty then pySplitAux [] rest
        else String.mk cur.reverse :: pySplitAux [] rest
      else pySplitAux (c :: cur) rest

/-- Python `line.split()`. -/
def pySplit (s : String) : List String := pySplitAux [] s.data

/-- Character-list version of Python `a.startswith(b)` (here: `b` starts `a`). -/
def charsStartsWith : List Char → List Char → Bool
  | [], _ => true
  | _ :: _, [] => false
  | a :: as, b :: bs => a == b && charsStartsWith as bs

/-- Character-list version of Python `pat in s` (substring containment). -/
def charsContains (pat : List Char) : List Char → Bool
  | [] => pat.isEmpty
  | c :: rest => charsStartsWith pat (c :: rest) || charsContains pat rest

/-- Python `pat in line` on strings. -/
def strContainsSub (pat line : String) : Bool := charsContains pat.data line.data

/-- Python `s.upper()` (the categories involved are ASCII). -/
def strUpper (s : String) : String := String.mk (s.data.map Char.toUpper)

/-- Python `s.lower()` (used for case-insensitive `%b` month matching). -/
def strLower (s : String) : String := String.mk (s.data.map Char.toLower)

/-- Python `s[1:-1]`: drop the first and last character. -/
def strInner (s : String) : String := String.mk (s.data.drop 1).dropLast

/-! ## Calendar arithmetic (embedding of `time.mktime` / `time.localtime`) -/

/-- Days since 1970-01-01 of a proleptic-Gregorian civil date
(era-based algorithm; every division below has a nonnegative dividend). -/
def daysFromCivil (y m d : Int) : Int :=
  let y2 := y - (if m ≤ 2 then 1 else 0)
  let era := (if y2 ≥ 0 then y2 else y2 - 399) / 400
  let yoe := y2 - era * 400
  let doy := (153 * (m + (if m > 2 then -3 else 9)) + 2) / 5 + d - 1
  let doe := yoe * 365 + yoe / 4 - yoe / 100 + doy
  era * 146097 + doe - 719468

/-- Civil date (year, month, day) of a day count since 1970-01-01. -/
def civilFromDays (z0 : Int) : Int × Int × Int :=
  let z := z0 + 719468
  let era := (if z ≥ 0 then z else z - 146096) / 146097
  let doe := z - era * 146097
  let yoe := (doe - doe / 1460 + doe / 36524 - doe / 146096) / 365
  let y := yoe + era * 400
  let doy := doe - (365 * yoe + yoe / 4 - yoe / 100)
  let mp := (5 * doy + 2) / 153
  let d := doy - (153 * mp + 2) / 5 + 1
  let m := mp + (if mp < 10 then 3 else -9)
  (y + (if m ≤ 2 then 1 else 0), m, d)

/-- A broken-down local time, the fields of `time.struct_time` the source uses. -/
structure Tm where
  year : Int
  month : Int
  day : Int
  hour : Int
  minute : Int
  second : Int
deriving DecidableEq

/-- `time.mktime` on a local broken-down time whose tm_isdst is pinned to the
current flag: local civil time plus the zone offset `tz` (seconds west of UTC,
the module's TIMEZONE_OFFSET) gives the Unix timestamp.  Out-of-range fields
are normalized arithmetically, as mktime does. -/
def mkLocalEpoch (tz : Int) (t : Tm) : Int :=
  daysFromCivil t.year t.month t.day * 86400
    + t.hour * 3600 + t.minute * 60 + t.second + tz

/-- `time.localtime`: Unix timestamp to local broken-down time under the same
zone offset `tz`. -/
def localtime (tz ts : Int) : Tm :=
  let ls := ts - tz
  let days := ls / 86400
  let sod := ls % 86400
  let c := civilFromDays days
  ⟨c.1, c.2.1, c.2.2, sod / 3600, (sod % 3600) / 60, sod % 60⟩

/-- `daysSince` from the source: days since the epoch of a timestamp converted
to local time, rounded down (lines 96-106). -/
def daysSince (tz ts : Int) : Int := (ts - tz) / 86400

/-! ## Data model -/

/-- A log entry (class LogEntry, lines 436-449).  The mutable
`_displayMessage` memo slot is carried separately by `getDisplayMessage`
below so that entry equality matches the identity-based equality the source's
caches rely on. -/
structure LogEntry where
  timestamp : Int
  type : String
  msg : String
  color : String
deriving DecidableEq

/-- DAYBREAK_EVENT (line 43): reserved category of synthetic day markers. -/
def DAYBREAK_EVENT : String := "DAYBREAK"

/-- stem's `list(log.Runlevel)`: the full runlevel scale the source assigns
over its `runlevels` parameter on line 225. -/
def stemRunlevels : List String := ["TRACE", "DEBUG", "INFO", "NOTICE", "WARN", "ERR"]

/-- RUNLEVEL_EVENT_COLOR (lines 41-42).  The dictionary has no TRACE key, so a
TRACE lookup is a KeyError in the source; here it is `none`. -/
def runlevelColor (t : String) : Option String :=
  if t = "DEBUG" then some "magenta"
  else if t = "INFO" then some "blue"
  else if t = "NOTICE" then some "green"
  else if t = "WARN" then some "yellow"
  else if t = "ERR" then some "red"
  else none

/-- conf_handler for "cache.logPanel.size" (lines 55-56): the configured
buffer capacity, forced to at least 1000. -/
def confCacheSize (v : Int) : Nat := (if (1000 : Int) ≤ v then v else 1000).toNat

/-! ## Log-file backfill parser (getLogFileEntries, lines 192-313) -/

/-- Digits-to-number worker. -/
def parseDigitsAux : List Char → Nat → Option Nat
  | [], acc => some acc
  | c :: rest, acc =>
      if c.isDigit then parseDigitsAux rest (acc * 10 + (c.toNat - 48)) else none

/-- Parse a nonempty all-digit character list. -/
def parseDigits (cs : List Char) : Option Nat :=
  if cs.isEmpty then none else parseDigitsAux cs 0

/-- strptime `%Y`: exactly four digits. -/
def parseYear4 (cs : List Char) : Option Nat :=
  if cs.length = 4 then parseDigits cs else none

/-- strptime numeric field of at most two digits with an inclusive range,
mirroring the regular expressions strptime compiles for %d/%H/%M/%S. -/
def parseBounded2 (lo hi : Nat) (cs : List Char) : Option Nat :=
  if cs.length = 0 ∨ 2 < cs.length then none
  else match parseDigits cs with
    | some n => if lo ≤ n ∧ n ≤ hi then some n else none
    | none => none

/-- strptime `%b` month abbreviations (matched case-insensitively). -/
def monthAbbrTable : List (String × Nat) :=
  [("jan", 1), ("feb", 2), ("mar", 3), ("apr", 4), ("may", 5), ("jun", 6),
   ("jul", 7), ("aug", 8), ("sep", 9), ("oct", 10), ("nov", 11), ("dec", 12)]

/-- Parse a strptime `%b` month token. -/
def parseMonthAbbr (s : String) : Option Nat :=
  (monthAbbrTable.find? (fun p => decide (p.1 = strLower s))).map (fun p => p.2)

/-- Split a character list at every occurrence of `sep` (for `%H:%M:%S`). -/
def splitCharAux (sep : Char) : List Char → List Char → List (List Char)
  | cur, [] => [cur.reverse]
  | cur, c :: rest =>
      if c == sep then cur.reverse :: splitCharAux sep [] rest
      else splitCharAux sep (c :: cur) rest

/-- strptime `%H:%M:%S` (hours 0-23, minutes 0-59, seconds 0-61). -/
def parseHMS (s : String) : Option (Nat × Nat × Nat) :=
  match splitCharAux ':' [] s.data with
  | [hs, ms, ss] =>
      match parseBounded2 0 23 hs, parseBounded2 0 59 ms, parseBounded2 0 61 ss with
      | some h, some mi, some sec => some (h, mi, sec)
      | _, _, _ => none
  | _ => none

/-- `time.strptime(s, "%Y %b %d %H:%M:%S")`: the whole string must match;
failure is the ValueError the source does not catch. -/
def strptimeYbdHMS (s : String) : Option Tm :=
  match pySplit s with
  | [ys, mos, ds, ts] =>
      match parseYear4 ys.data, parseMonthAbbr mos, parseBounded2 1 31 ds.data, parseHMS ts with
      | some y, some mo, some d, some (h, mi, sec) =>
          some ⟨(y : Int), (mo : Int), (d : Int), (h : Int), (mi : Int), (sec : Int)⟩
      | _, _, _, _ => none
  | _ => none

/-- Lines 280-295: join the first three tokens, strip everything from the
first decimal point, prepend the placeholder year 2012 (a leap year, so
Feb 29 source lines still parse) and run strptime. -/
def parseLogTimestamp (t0 t1 t2 : String) : Option Tm :=
  let joined := t0 ++ " " ++ t1 ++ " " ++ t2
  let stripped := String.mk (joined.data.takeWhile (fun c => !(c == '.')))
  strptimeYbdHMS ("2012 " ++ stripped)

/-- The backwards scan over the log-file lines (lines 263-309), already given
the reversed line list.  `accepted` is the runlevel list the membership test
on line 278 uses: because line 225 reassigns the function's `runlevels`
parameter, the wrapper below always passes `stemRunlevels` here.  A strptime
failure or a TRACE color lookup is an uncaught exception in the source,
embedded as `none`. -/
def scanLogLines (accepted : List String) (now tz : Int) : List String → Option (List LogEntry)
  | [] => some []
  | line :: rest =>
      let lineComp := pySplit line
      if lineComp.length < 4 then scanLogLines accepted now tz rest
      else
        let eventType := strUpper (strInner (lineComp.getD 3 ""))
        let step : Option (List LogEntry) :=
          if eventType ∈ accepted then
            match parseLogTimestamp (lineComp.getD 0 "") (lineComp.getD 1 "") (lineComp.getD 2 "") with
            | none => none
            | some tm =>
              match runlevelColor eventType with
              | none => none
              | some col =>
                let e2012 := mkLocalEpoch tz tm
                let eventTime :=
                  if e2012 > now + 60 then mkLocalEpoch tz { tm with year := tm.year - 1 }
                  else e2012
                some [⟨eventTime, eventType, String.intercalate " " (lineComp.drop 4), col⟩]
          else some []
        match step with
        | none => none
        | some es =>
            if strContainsSub "opening log file" line then some es
            else
              match scanLogLines accepted now tz rest with
              | none => none
              | some more => some (es ++ more)

/-- getLogFileEntries (lines 192-313) from the point where the log file's
lines are in hand; locating and reading the file itself is collaborator I/O
(torTools / system.call) and is abstracted into the `lines` argument, given
oldest-first exactly as read.  Line 206 returns `[]` for an empty runlevel
argument; line 225 then reassigns `runlevels = list(log.Runlevel)`, so the
scan itself accepts every stem runlevel regardless of the argument; line 311
applies the (truthy) `addLimit` crop. -/
def getLogFileEntries (runlevels : List String) (lines : List String)
    (addLimit : Option Nat) (now tz : Int) : Option (List LogEntry) :=
  if runlevels.isEmpty then some []
  else
    match scanLogLines stemRunlevels now tz lines.reverse with
    | none => none
    | some evs =>
        some (match addLimit with
              | some n => if n = 0 then evs else evs.take n
              | none => evs)

/-! ## Day-marker insertion (getDaybreaks, lines 315-351) -/

/-- The insertion walk of getDaybreaks (lines 339-346): wherever the local
calendar day of an entry differs from the day tracked so far (seeded with the
current day), insert a synthetic DAYBREAK entry stamped with the start of the
entry's day. -/
def daybreaksLoop (tz : Int) : Int → List LogEntry → List LogEntry
  | _, [] => []
  | lastDay, e :: rest =>
      let eventDay := daysSince tz e.timestamp
      if eventDay ≠ lastDay then
        ⟨eventDay * 86400 + tz, DAYBREAK_EVENT, "", "white"⟩ :: e ::
          daybreaksLoop tz eventDay rest
      else e :: daybreaksLoop tz eventDay rest

/-- The module-level cache CACHED_DAYBREAKS_ARGUMENTS / CACHED_DAYBREAKS_RESULT
(lines 85-86). -/
structure DaybreaksCache where
  args : Option (List LogEntry × Int)
  result : List LogEntry
deriving DecidableEq

/-- getDaybreaks (lines 315-351) with the module cache passed explicitly:
empty input short-circuits; a cache hit needs the same event list and, unless
`ignoreTimeForCache`, the same current day; a miss recomputes and stores. -/
def getDaybreaks (tz now : Int) (ignoreTimeForCache : Bool) (events : List LogEntry)
    (c : DaybreaksCache) : List LogEntry × DaybreaksCache :=
  if events = [] then ([], c)
  else
    let currentDay := daysSince tz now
    match c.args with
    | some (a, d) =>
        if a = events ∧ (ignoreTimeForCache = true ∨ d = currentDay) then (c.result, c)
        else
          let r := daybreaksLoop tz currentDay events
          (r, ⟨some (events, currentDay), r⟩)
    | none =>
        let r := daybreaksLoop tz currentDay events
        (r, ⟨some (events, currentDay), r⟩)

/-- A well-formed daybreaks cache: whatever is stored is the genuine
insertion-walk result for the stored key (events, day).  The empty cache is
trivially well-formed, and every store writes exactly this. -/
def DaybreaksCacheWF (tz : Int) (c : DaybreaksCache) : Prop :=
  ∀ a d, c.args = some (a, d) → c.result = daybreaksLoop tz d a

/-- Drop every DAYBREAK-category entry (what draw's rendering of markers
leaves of the underlying events). -/
def removeDaybreaks (l : List LogEntry) : List LogEntry :=
  l.filter (fun e => decide (e.type ≠ DAYBREAK_EVENT))

/-! ## Deduplication (getDuplicates / isDuplicate, lines 353-434) -/

/-- One COMMON_LOG_MESSAGES pattern check (lines 419-427): a pattern starting
with `*` matches as a substring of both messages, otherwise both messages must
start with the pattern.  (On an empty pattern the source would raise
IndexError at `commonMsg[0]`; config patterns are nonempty.) -/
def commonMatch (commonMsg msgA msgB : String) : Bool :=
  match commonMsg.data with
  | [] => false
  | c :: rest =>
      if c == '*' then charsContains rest msgA.data && charsContains rest msgB.data
      else charsStartsWith commonMsg.data msgA.data && charsStartsWith commonMsg.data msgB.data

/-- Lines 416-427: two same-category entries are duplicates when the messages
are equal or some configured common pattern for the category matches both.
`common` is the COMMON_LOG_MESSAGES mapping loaded from the config (absent
keys behave as an empty pattern list). -/
def isDuplicateMatch (common : String → List String) (event forward : LogEntry) : Bool :=
  if event.msg = forward.msg then true
  else (common event.type).any (fun m => commonMatch m event.msg forward.msg)

/-- The index-collecting walk of `isDuplicate(…, getDuplicates = True)`
(lines 407-433): scan forward, stop at the first DAYBREAK entry, record the
index of every same-category match.  (The boolean mode of the source returns
whether this list is nonempty.) -/
def isDuplicateIndicesAux (common : String → List String) (event : LogEntry) :
    Nat → List LogEntry → List Nat
  | _, [] => []
  | i, f :: rest =>
      if f.type = DAYBREAK_EVENT then []
      else if event.type = f.type ∧ isDuplicateMatch common event f = true then
        i :: isDuplicateIndicesAux common event (i + 1) rest
      else isDuplicateIndicesAux common event (i + 1) rest

/-- `isDuplicate(event, eventSet, True)`. -/
def isDuplicateIndices (common : String → List String) (event : LogEntry)
    (eventSet : List LogEntry) : List Nat :=
  isDuplicateIndicesAux common event 0 eventSet

/-- Lines 384-385: delete the entries at the collected indices (the source
deletes them in descending order, which keeps exactly the positions not
listed).  `i` is the position of the list head within the original list. -/
def removeIndicesFrom : List LogEntry → List Nat → Nat → List LogEntry
  | [], _, _ => []
  | e :: rest, idxs, i =>
      if i ∈ idxs then removeIndicesFrom rest idxs (i + 1)
      else e :: removeIndicesFrom rest idxs (i + 1)

/-- The `while eventsRemaining` loop of getDuplicates (lines 375-387).
`oracle k` tells whether the wall-clock budget check (line 380) fires on
iteration `k`; a firing check aborts with `None`, dropping everything.  The
`fuel` argument only makes the recursion structural: each pass pops at least
one element, so the wrapper's `fuel = events.length` never runs out (proved
below). -/
def dedupLoop (common : String → List String) (oracle : Nat → Bool) :
    Nat → Nat → List LogEntry → Option (List (LogEntry × Nat))
  | _, _, [] => some []
  | 0, _, _ :: _ => none
  | fuel + 1, k, e :: rest =>
      let idxs := isDuplicateIndices common e rest
      if oracle k = true then none
      else
        match dedupLoop common oracle fuel (k + 1) (removeIndicesFrom rest idxs 0) with
        | none => none
        | some out => some ((e, idxs.length) :: out)

/-- The module-level cache CACHED_DUPLICATES_ARGUMENTS / CACHED_DUPLICATES_RESULT
(lines 87-88). -/
structure DuplicatesCache where
  args : Option (List LogEntry)
  result : List (LogEntry × Nat)
deriving DecidableEq

/-- getDuplicates (lines 353-392) with the module cache passed explicitly:
a hit on the exact event list returns the stored pairs; otherwise the loop
runs, and only a completed run (not a timeout) is stored. -/
def getDuplicates (common : String → List String) (oracle : Nat → Bool)
    (events : List LogEntry) (c : DuplicatesCache) :
    Option (List (LogEntry × Nat)) × DuplicatesCache :=
  match c.args with
  | some a =>
      if a = events then (some c.result, c)
      else
        match dedupLoop common oracle events.length 0 events with
        | none => (none, c)
        | some r => (some r, ⟨some events, r⟩)
  | none =>
      match dedupLoop common oracle events.length 0 events with
      | none => (none, c)
      | some r => (some r, ⟨some events, r⟩)

/-- A well-formed duplicates cache: whatever is stored is a completed loop
result for the stored key.  The empty cache is trivially well-formed, and
every store writes exactly this. -/
def DuplicatesCacheWF (common : String → List String) (c : DuplicatesCache) : Prop :=
  ∀ a, c.args = some a →
    ∃ oracle fuel k, dedupLoop common oracle fuel k a = some c.result

/-- Sum of the duplicate counts of a deduplicated listing. -/
def sumCounts (out : List (LogEntry × Nat)) : Nat := (out.map Prod.snd).sum

/-- Number of DAYBREAK entries of a listing (used to state claim C2's
original accounting equation). -/
def countDaybreaks (l : List LogEntry) : Nat :=
  (l.filter (fun e => decide (e.type = DAYBREAK_EVENT))).length

/-! ## Buffer trimming (LogPanel._trimEvents, lines 1245-1269) -/

/-- _trimEvents: crop to the cache size, then (when the TTL is positive) walk
from the oldest end and cut the maximal suffix of entries from calendar days
more than `logTTL` days before the current day, stopping at the first entry
inside the TTL.  The walk from the tail is the reverse/dropWhile/reverse
below. -/
def trimEvents (cacheSize : Nat) (logTTL : Int) (tz now : Int)
    (events : List LogEntry) : List LogEntry :=
  let cropped := if events.length > cacheSize then events.take cacheSize else events
  if 0 < logTTL then
    let currentDay := daysSince tz now
    (cropped.reverse.dropWhile
      (fun e => decide (logTTL < currentDay - daysSince tz e.timestamp))).reverse
  else cropped

/-! ## Display strings (LogEntry.getDisplayMessage, lines 452-470) -/

/-- Python `"%02i" % n` for the nonnegative field values used here. -/
def fmt02 (n : Int) : String :=
  if 0 ≤ n ∧ n < 10 then "0" ++ toString n else toString n

/-- The undated display string `"%02i:%02i:%02i [%s] %s"` (line 468). -/
def displayUndated (tz : Int) (e : LogEntry) : String :=
  let t := localtime tz e.timestamp
  fmt02 t.hour ++ ":" ++ fmt02 t.minute ++ ":" ++ fmt02 t.second
    ++ " [" ++ e.type ++ "] " ++ e.msg

/-- The dated display string `"%i/%i/%i %02i:%02i:%02i [%s] %s"` with fields
(month, day, year, h, m, s) (line 463): month, day and year print unpadded. -/
def displayDated (tz : Int) (e : LogEntry) : String :=
  let t := localtime tz e.timestamp
  toString t.month ++ "/" ++ toString t.day ++ "/" ++ toString t.year ++ " "
    ++ fmt02 t.hour ++ ":" ++ fmt02 t.minute ++ ":" ++ fmt02 t.second
    ++ " [" ++ e.type ++ "] " ++ e.msg

/-- getDisplayMessage with the `_displayMessage` memo slot passed explicitly
(it is the only mutable field of a LogEntry).  The date-including variant
skips the cache entirely; the undated variant recomputes when the slot is
falsy (None or the empty string) and stores what it computed. -/
def getDisplayMessage (tz : Int) (e : LogEntry) (cached : Option String)
    (includeDate : Bool) : String × Option String :=
  if includeDate then (displayDated tz e, cached)
  else
    match cached with
    | some s => if s = "" then (displayUndated tz e, some (displayUndated tz e)) else (s, some s)
    | none => (displayUndated tz e, some (displayUndated tz e))

/-! ## Scheduler decision (LogPanel.run, lines 1055-1084) -/

/-- What one pass of the `run` loop decides to do after sampling state. -/
inductive SchedAction where
  | wait (ms : Int)
  | sleepForever
  | redraw
deriving DecidableEq

/-- Python `max` on the integer millisecond counts used below. -/
def intMax (a b : Int) : Int := if a ≤ b then b else a

/-- The sleep/redraw decision of one iteration of `run` (lines 1064-1084),
in exact milliseconds (the source computes in float seconds; every constant
involved — 5 s, 0.05 s, the configured maxRefreshRate — is a whole number of
milliseconds).  `contentUnchanged` is `msgLog == lastLoggedEvents`,
`dayUnchanged` is `lastDay == currentDay`, `timeSinceResetMs` is the time
since `_lastUpdate`, and `maxRefreshRateMs` is CONFIG["features.log.maxRefreshRate"].
A nonzero sleep time waits on the condition variable (woken early by
registerEvent or stop); zero falls through to an immediate redraw. -/
def runStep (contentUnchanged dayUnchanged paused : Bool)
    (timeSinceResetMs maxRefreshRateMs : Int) : SchedAction :=
  let sleepTime : Int :=
    if (contentUnchanged && dayUnchanged) || paused then 5000
    else if timeSinceResetMs < maxRefreshRateMs then
      intMax 50 (maxRefreshRateMs - timeSinceResetMs)
    else 0
  if sleepTime ≠ 0 then SchedAction.wait sleepTime else SchedAction.redraw

/-- The scheduler behaviour claim C5 asserts, stated from the spec's words
for comparison with `runStep`: unchanged-or-paused sleeps indefinitely
(woken only by the next event or a halt), anything else sleeps
`max(minInterval, refreshPeriod − elapsed)` before redrawing. -/
def runStepClaim (contentUnchanged dayUnchanged paused : Bool)
    (timeSinceResetMs maxRefreshRateMs minIntervalMs : Int) : SchedAction :=
  if (contentUnchanged && dayUnchanged) || paused then SchedAction.sleepForever
  else SchedAction.wait (intMax minIntervalMs (maxRefreshRateMs - timeSinceResetMs))

/-- The dated display format claim C7 asserts ("MM/DD/YYYY HH:MM:SS
[category] message", i.e. zero-padded month and day), stated from the spec's
words for comparison with the source's `displayDated`. -/
def displayDatedClaim (tz : Int) (e : LogEntry) : String :=
  let t := localtime tz e.timestamp
  fmt02 t.month ++ "/" ++ fmt02 t.day ++ "/" ++ toString t.year ++ " "
    ++ fmt02 t.hour ++ ":" ++ fmt02 t.minute ++ ":" ++ fmt02 t.second
    ++ " [" ++ e.type ++ "] " ++ e.msg

/-! ## Helper lemmas -/

/-- `daysSince` is monotone in the timestamp. -/
theorem daysSince_mono {tz a b : Int} (h : a ≤ b) : daysSince tz a ≤ daysSince tz b :=
  Int.ediv_le_ediv (by norm_num) (by omega)

/-- Every element surviving the oldest-end TTL cut of a time-ascending list is
inside the TTL. -/
theorem mem_dropWhile_ttl (cd ttl tz : Int) :
    ∀ (r : List LogEntry),
      List.Pairwise (fun a b => a.timestamp ≤ b.timestamp) r →
      ∀ e ∈ r.dropWhile (fun e => decide (ttl < cd - daysSince tz e.timestamp)),
        cd - daysSince tz e.timestamp ≤ ttl := by
  intro r
  induction r with
  | nil => intro _ e he; simp at he
  | cons x xs ih =>
    intro hp e he
    rw [List.dropWhile_cons] at he
    rcases List.pairwise_cons.mp hp with ⟨hx, hxs⟩
    by_cases hc : ttl < cd - daysSince tz x.timestamp
    · rw [if_pos (by simpa using hc)] at he
      exact ih hxs e he
    · rw [if_neg (by simpa using hc)] at he
      rcases List.mem_cons.mp he with rfl | hmem
      · omega
      · have hts := @daysSince_mono tz _ _ (hx e hmem)
        omega

/-- Removing no indices keeps the list. -/
theorem removeIndicesFrom_nil : ∀ (l : List LogEntry) (i : Nat),
    removeIndicesFrom l [] i = l := by
  intro l
  induction l with
  | nil => intro i; rfl
  | cons e rest ih => intro i; simp [removeIndicesFrom, ih]

/-- An index below every remaining position can be dropped from the removal
list without effect. -/
theorem removeIndicesFrom_drop_lt (j : Nat) (jrest : List Nat) :
    ∀ (l : List LogEntry) (i : Nat), j < i →
      removeIndicesFrom l (j :: jrest) i = removeIndicesFrom l jrest i := by
  intro l
  induction l with
  | nil => intro i _; rfl
  | cons e rest ih =>
    intro i hj
    unfold removeIndicesFrom
    by_cases h : i ∈ jrest
    · rw [if_pos (List.mem_cons_of_mem _ h), if_pos h, ih _ (by omega)]
    · have hnot : i ∉ j :: jrest := by
        intro hc
        rcases List.mem_cons.mp hc with rfl | hc2
        · omega
        · exact h hc2
      rw [if_neg hnot, if_neg h, ih _ (by omega)]

/-- Removal never lengthens the list. -/
theorem removeIndicesFrom_length_le : ∀ (l : List LogEntry) (idxs : List Nat) (i : Nat),
    (removeIndicesFrom l idxs i).length ≤ l.length := by
  intro l
  induction l with
  | nil => intro idxs i; exact Nat.le_refl _
  | cons e rest ih =>
    intro idxs i
    unfold removeIndicesFrom
    by_cases h : i ∈ idxs
    · rw [if_pos h]
      exact Nat.le_succ_of_le (ih idxs (i + 1))
    · rw [if_neg h]
      simpa using Nat.succ_le_succ (ih idxs (i + 1))

/-- Removing a strictly increasing list of in-range indices removes exactly
that many elements. -/
theorem removeIndicesFrom_len : ∀ (l : List LogEntry) (idxs : List Nat) (i : Nat),
    List.Pairwise (· < ·) idxs →
    (∀ j ∈ idxs, i ≤ j ∧ j < i + l.length) →
    (removeIndicesFrom l idxs i).length + idxs.length = l.length := by
  intro l
  induction l with
  | nil =>
    intro idxs i _ hb
    cases idxs with
    | nil => rfl
    | cons j js =>
      have := hb j (by simp)
      simp at this
      omega
  | cons e rest ih =>
    intro idxs i hs hb
    unfold removeIndicesFrom
    cases idxs with
    | nil =>
      rw [if_neg (List.not_mem_nil i), removeIndicesFrom_nil]
      simp
    | cons j js =>
      rcases List.pairwise_cons.mp hs with ⟨hj, hjs⟩
      by_cases hji : j = i
      · subst hji
        rw [if_pos (by simp), removeIndicesFrom_drop_lt j js rest (j + 1) (by omega)]
        have hrec := ih js (j + 1) hjs (fun x hx => by
          have h1 := hj x hx
          have h2 := hb x (List.mem_cons_of_mem _ hx)
          simp at h2
          omega)
        simp only [List.length_cons]
        omega
      · have hij : i < j := by
          have := hb j (by simp)
          omega
        have hnot : i ∉ j :: js := by
          intro hc
          rcases List.mem_cons.mp hc with rfl | hc2
          · omega
          · have := hj i hc2
            omega
        rw [if_neg hnot]
        have hrec := ih (j :: js) (i + 1) hs (fun x hx => by
          have h2 := hb x hx
          simp at h2 ⊢
          rcases List.mem_cons.mp hx with rfl | hx2
          · omega
          · have := hj x hx2
            omega)
        simp only [List.length_cons] at hrec ⊢
        omega

/-- The collected duplicate indices are in range and strictly increasing. -/
theorem isDuplicateIndicesAux_bounds (common : String → List String) (ev : LogEntry) :
    ∀ (l : List LogEntry) (k : Nat),
      (∀ i ∈ isDuplicateIndicesAux common ev k l, k ≤ i ∧ i < k + l.length) ∧
      List.Pairwise (· < ·) (isDuplicateIndicesAux common ev k l) := by
  intro l
  induction l with
  | nil => intro k; simp [isDuplicateIndicesAux]
  | cons f rest ih =>
    intro k
    unfold isDuplicateIndicesAux
    by_cases h1 : f.type = DAYBREAK_EVENT
    · simp [h1]
    · rw [if_neg h1]
      obtain ⟨hb, hp⟩ := ih (k + 1)
      by_cases h2 : ev.type = f.type ∧ isDuplicateMatch common ev f = true
      · rw [if_pos h2]
        refine ⟨?_, List.pairwise_cons.mpr ⟨fun i hi => by have := hb i hi; omega, hp⟩⟩
        intro i hi
        rcases List.mem_cons.mp hi with rfl | hi2
        · simp only [List.length_cons]; omega
        · have := hb i hi2
          simp only [List.length_cons]
          omega
      · rw [if_neg h2]
        refine ⟨fun i hi => ?_, hp⟩
        have := hb i hi
        simp only [List.length_cons]
        omega

/-- Every collected duplicate index points (relative to the scan start `k`) at
an entry of the same category as the probed event, and only non-DAYBREAK
entries stand before it. -/
theorem isDuplicateIndicesAux_spec (common : String → List String) (ev : LogEntry) :
    ∀ (l : List LogEntry) (k i : Nat),
      i ∈ isDuplicateIndicesAux common ev k l →
      k ≤ i ∧ (∃ f, l[i - k]? = some f ∧ f.type = ev.type) ∧
        ∀ g ∈ l.take (i - k), g.type ≠ DAYBREAK_EVENT := by
  intro l
  induction l with
  | nil => intro k i hi; simp [isDuplicateIndicesAux] at hi
  | cons f rest ih =>
    intro k i hi
    unfold isDuplicateIndicesAux at hi
    by_cases h1 : f.type = DAYBREAK_EVENT
    · simp [h1] at hi
    · rw [if_neg h1] at hi
      by_cases h2 : ev.type = f.type ∧ isDuplicateMatch common ev f = true
      · rw [if_pos h2] at hi
        rcases List.mem_cons.mp hi with rfl | hi2
        · exact ⟨Nat.le_refl _, ⟨f, by simp, h2.1.symm⟩, by simp⟩
        · obtain ⟨hk, ⟨g, hg, hgt⟩, htake⟩ := ih (k + 1) i hi2
          have hik : i - k = (i - (k + 1)) + 1 := by omega
          refine ⟨by omega, ⟨g, by rw [hik]; simpa using hg, hgt⟩, ?_⟩
          rw [hik]
          intro x hx
          rw [List.take_succ_cons] at hx
          rcases List.mem_cons.mp hx with rfl | hx2
          · exact h1
          · exact htake x hx2
      · rw [if_neg h2] at hi
        obtain ⟨hk, ⟨g, hg, hgt⟩, htake⟩ := ih (k + 1) i hi
        have hik : i - k = (i - (k + 1)) + 1 := by omega
        refine ⟨by omega, ⟨g, by rw [hik]; simpa using hg, hgt⟩, ?_⟩
        rw [hik]
        intro x hx
        rw [List.take_succ_cons] at hx
        rcases List.mem_cons.mp hx with rfl | hx2
        · exact h1
        · exact htake x hx2

/-- Accounting of the deduplication loop: the emitted pairs plus the merged
duplicates account for every input entry exactly once. -/
theorem dedupLoop_sum (common : String → List String) (oracle : Nat → Bool) :
    ∀ (fuel k : Nat) (l : List LogEntry) (out : List (LogEntry × Nat)),
      dedupLoop common oracle fuel k l = some out →
      out.length + sumCounts out = l.length := by
  intro fuel
  induction fuel with
  | zero =>
    intro k l out h
    cases l with
    | nil =>
      simp only [dedupLoop, Option.some.injEq] at h
      subst h
      simp [sumCounts]
    | cons e rest => simp [dedupLoop] at h
  | succ fuel ih =>
    intro k l out h
    cases l with
    | nil =>
      simp only [dedupLoop, Option.some.injEq] at h
      subst h
      simp [sumCounts]
    | cons e rest =>
      rw [dedupLoop] at h
      by_cases ho : oracle k = true
      · simp [ho] at h
      · rw [if_neg ho] at h
        cases hrec : dedupLoop common oracle fuel (k + 1)
            (removeIndicesFrom rest (isDuplicateIndices common e rest) 0) with
        | none => rw [hrec] at h; simp at h
        | some out' =>
          rw [hrec] at h
          simp only [Option.some.injEq] at h
          subst h
          have hsum := ih (k + 1) _ out' hrec
          have hb := isDuplicateIndicesAux_bounds common e rest 0
          have hlen := removeIndicesFrom_len rest (isDuplicateIndices common e rest) 0
            hb.2 (fun j hj => by have := hb.1 j hj; omega)
          have hcount : sumCounts ((e, (isDuplicateIndices common e rest).length) :: out') =
              (isDuplicateIndices common e rest).length + sumCounts out' := by
            simp [sumCounts]
          rw [hcount]
          simp only [List.length_cons]
          omega

/-- With enough fuel and a silent timeout oracle the loop always completes. -/
theorem dedupLoop_complete (common : String → List String) (oracle : Nat → Bool)
    (hno : ∀ k, oracle k = false) :
    ∀ (fuel k : Nat) (l : List LogEntry), l.length ≤ fuel →
      ∃ out, dedupLoop common oracle fuel k l = some out := by
  intro fuel
  induction fuel with
  | zero =>
    intro k l hl
    cases l with
    | nil => exact ⟨[], rfl⟩
    | cons e rest => simp at hl
  | succ fuel ih =>
    intro k l hl
    cases l with
    | nil => exact ⟨[], rfl⟩
    | cons e rest =>
      have hle : (removeIndicesFrom rest (isDuplicateIndices common e rest) 0).length ≤ fuel :=
        le_trans (removeIndicesFrom_length_le _ _ _) (by simpa using hl)
      obtain ⟨out', hout⟩ := ih (k + 1) _ hle
      refine ⟨(e, (isDuplicateIndices common e rest).length) :: out', ?_⟩
      rw [dedupLoop, if_neg (by simp [hno k]), hout]

/-- The marker-insertion walk only adds DAYBREAK entries: filtering them away
returns the input (when the input itself carries no DAYBREAK entry). -/
theorem daybreaksLoop_filter (tz : Int) :
    ∀ (E : List LogEntry) (lastDay : Int),
      (∀ e ∈ E, e.type ≠ DAYBREAK_EVENT) →
      removeDaybreaks (daybreaksLoop tz lastDay E) = E := by
  intro E
  induction E with
  | nil => intro _ _; rfl
  | cons e rest ih =>
    intro lastDay hE
    have he : e.type ≠ DAYBREAK_EVENT := hE e (by simp)
    have hrest : ∀ x ∈ rest, x.type ≠ DAYBREAK_EVENT := fun x hx => hE x (by simp [hx])
    unfold daybreaksLoop
    by_cases hd : daysSince tz e.timestamp ≠ lastDay
    · rw [if_pos hd]
      simp only [removeDaybreaks, List.filter_cons] at ih ⊢
      rw [if_neg (by simp), if_pos (by simpa using he)]
      exact congrArg (e :: ·) (ih _ hrest)
    · rw [if_neg hd]
      simp only [removeDaybreaks, List.filter_cons] at ih ⊢
      rw [if_pos (by simpa using he)]
      exact congrArg (e :: ·) (ih _ hrest)

/-- The input is a sublist of the marker-annotated output. -/
theorem daybreaksLoop_sublist (tz : Int) :
    ∀ (E : List LogEntry) (lastDay : Int), E.Sublist (daybreaksLoop tz lastDay E) := by
  intro E
  induction E with
  | nil => intro _; simp [daybreaksLoop]
  | cons e rest ih =>
    intro lastDay
    unfold daybreaksLoop
    by_cases hd : daysSince tz e.timestamp ≠ lastDay
    · rw [if_pos hd]
      exact List.Sublist.cons _ (List.Sublist.cons₂ _ (ih _))
    · rw [if_neg hd]
      exact List.Sublist.cons₂ _ (ih _)

/-! ## Claim theorems -/

/-- Claim C1 (code bug, evaluation at the failing input): getLogFileEntries is
called with accepted categories `["NOTICE"]`, yet a parsed `[debug]` line still
contributes an entry — with category `"DEBUG"`, not in the accepted set —
because line 225 reassigns the `runlevels` parameter to the full stem runlevel
list before the scan.  The claim (and the function's own docstring, "past
events matching the given runlevels") says such a line contributes nothing. -/
theorem c1_nonaccepted_category_still_emitted :
    getLogFileEntries ["NOTICE"] ["Jul 15 18:29:48.806 [debug] some message"] none 1500000000 0 =
      some [⟨1342376988, "DEBUG", "some message", "magenta"⟩] ∧
    "DEBUG" ∉ ["NOTICE"] := by decide

/-- Claim C2 (counterexample): on the single-entry input the deduplicator
returns one pair with duplicate count 0, whose counts sum to 0 — not to the
input length (1) minus the number of day-boundary entries (0) as the claim's
accounting equation demands. -/
theorem c2_counterexample :
    (getDuplicates (fun _ => []) (fun _ => false)
        [⟨0, "NOTICE", "x", "green"⟩] ⟨none, []⟩).1 =
      some [(⟨0, "NOTICE", "x", "green"⟩, 0)] ∧
    sumCounts [(⟨0, "NOTICE", "x", "green"⟩, 0)] ≠
      1 - countDaybreaks [⟨0, "NOTICE", "x", "green"⟩] := by decide

/-- Claim C2 (amended): getDuplicates either signals timeout (`none`) or
returns at most `len(input)` pairs whose pair count plus summed duplicate
counts equals the input length (every input entry is emitted or merged exactly
once; equivalently the counts sum to the input length minus the number of
returned pairs) — never a partial or inconsistent result; and when the budget
check never fires it always returns a result. -/
theorem c2_dedup_total_or_timeout (common : String → List String) (oracle : Nat → Bool)
    (events : List LogEntry) (c : DuplicatesCache) (hWF : DuplicatesCacheWF common c) :
    ((getDuplicates common oracle events c).1 = none ∨
      ∃ out, (getDuplicates common oracle events c).1 = some out ∧
        out.length ≤ events.length ∧ out.length + sumCounts out = events.length) ∧
    ((∀ k, oracle k = false) →
      ∃ out, (getDuplicates common oracle events c).1 = some out) := by
  cases harg : c.args with
  | some a =>
    by_cases heq : a = events
    · subst heq
      obtain ⟨oracle', fuel', k', hres⟩ := hWF a harg
      have hsum := dedupLoop_sum common oracle' fuel' k' a c.result hres
      have h1 : (getDuplicates common oracle a c).1 = some c.result := by
        simp [getDuplicates, harg]
      exact ⟨Or.inr ⟨c.result, h1, by omega, hsum⟩, fun _ => ⟨c.result, h1⟩⟩
    · cases hrun : dedupLoop common oracle events.length 0 events with
      | none =>
        have h1 : (getDuplicates common oracle events c).1 = none := by
          simp [getDuplicates, harg, heq, hrun]
        refine ⟨Or.inl h1, fun hno => ?_⟩
        obtain ⟨out, hout⟩ :=
          dedupLoop_complete common oracle hno events.length 0 events (Nat.le_refl _)
        simp [hout] at hrun
      | some r =>
        have h1 : (getDuplicates common oracle events c).1 = some r := by
          simp [getDuplicates, harg, heq, hrun]
        have hsum := dedupLoop_sum common oracle events.length 0 events r hrun
        exact ⟨Or.inr ⟨r, h1, by omega, hsum⟩, fun _ => ⟨r, h1⟩⟩
  | none =>
    cases hrun : dedupLoop common oracle events.length 0 events with
    | none =>
      have h1 : (getDuplicates common oracle events c).1 = none := by
        simp [getDuplicates, harg, hrun]
      refine ⟨Or.inl h1, fun hno => ?_⟩
      obtain ⟨out, hout⟩ :=
        dedupLoop_complete common oracle hno events.length 0 events (Nat.le_refl _)
      simp [hout] at hrun
    | some r =>
      have h1 : (getDuplicates common oracle events c).1 = some r := by
        simp [getDuplicates, harg, hrun]
      have hsum := dedupLoop_sum common oracle events.length 0 events r hrun
      exact ⟨Or.inr ⟨r, h1, by omega, hsum⟩, fun _ => ⟨r, h1⟩⟩

/-- Witness for C2's amended theorem at a concrete input: the empty cache is
well-formed, and on a one-entry list the result is a consistent `some`. -/
theorem c2_witness :
    DuplicatesCacheWF (fun _ => []) ⟨none, []⟩ ∧
    (((getDuplicates (fun _ => []) (fun _ => false)
          [⟨0, "NOTICE", "x", "green"⟩] ⟨none, []⟩).1 = none ∨
        ∃ out, (getDuplicates (fun _ => []) (fun _ => false)
            [⟨0, "NOTICE", "x", "green"⟩] ⟨none, []⟩).1 = some out ∧
          out.length ≤ 1 ∧ out.length + sumCounts out = 1) ∧
      ((∀ k, (fun _ : Nat => false) k = false) →
        ∃ out, (getDuplicates (fun _ => []) (fun _ => false)
            [⟨0, "NOTICE", "x", "green"⟩] ⟨none, []⟩).1 = some out)) :=
  ⟨fun _ h => Option.noConfusion h,
   c2_dedup_total_or_timeout (fun _ => []) (fun _ => false)
     [⟨0, "NOTICE", "x", "green"⟩] ⟨none, []⟩ (fun _ h => Option.noConfusion h)⟩

/-- Trimming never leaves more than the cache size. -/
theorem trimEvents_length_le (cs : Nat) (ttl tz now : Int) (events : List LogEntry) :
    (trimEvents cs ttl tz now events).length ≤ cs ∨
    (trimEvents cs ttl tz now events).length = events.length ∧ events.length ≤ cs := by
  unfold trimEvents
  by_cases h1 : events.length > cs
  · rw [if_pos h1]
    by_cases h2 : (0 : Int) < ttl
    · rw [if_pos h2]
      refine Or.inl ?_
      calc ((events.take cs).reverse.dropWhile _).reverse.length
          ≤ (events.take cs).reverse.length := by
            rw [List.length_reverse]
            exact (List.dropWhile_sublist _).length_le
        _ ≤ cs := by simp [List.length_take]
    · rw [if_neg h2]
      exact Or.inl (by simp [List.length_take])
  · rw [if_neg h1]
    by_cases h2 : (0 : Int) < ttl
    · rw [if_pos h2]
      refine Or.inl ?_
      calc (events.reverse.dropWhile _).reverse.length
          ≤ events.reverse.length := by
            rw [List.length_reverse]
            exact (List.dropWhile_sublist _).length_le
        _ ≤ cs := by simp; omega
    · rw [if_neg h2]
      exact Or.inl (by omega)

/-- Every entry surviving the trim is from a calendar day at most TTL days
before the current day (for a newest-first buffer). -/
theorem trimEvents_ttl_bound (cs : Nat) (ttl tz now : Int) (events : List LogEntry)
    (hsorted : List.Pairwise (fun a b => b.timestamp ≤ a.timestamp) events)
    (httl : 0 < ttl) :
    ∀ e ∈ trimEvents cs ttl tz now events,
      daysSince tz now - daysSince tz e.timestamp ≤ ttl := by
  unfold trimEvents
  rw [if_pos httl]
  intro e he
  rw [List.mem_reverse] at he
  have hpair : List.Pairwise (fun a b : LogEntry => a.timestamp ≤ b.timestamp)
      (if events.length > cs then events.take cs else events).reverse := by
    rw [List.pairwise_reverse]
    by_cases h1 : events.length > cs
    · rw [if_pos h1]
      exact List.Pairwise.sublist (List.take_sublist _ _) hsorted
    · rw [if_neg h1]
      exact hsorted
  exact mem_dropWhile_ttl (daysSince tz now) ttl tz _ hpair e he

/-- A TTL of zero disables age-based eviction: trimming only crops to the
cache size. -/
theorem trimEvents_ttl_zero (cs : Nat) (tz now : Int) (events : List LogEntry) :
    trimEvents cs 0 tz now events = events.take cs := by
  unfold trimEvents
  rw [if_neg (by omega)]
  by_cases h : events.length > cs
  · rw [if_pos h]
  · rw [if_neg h, List.take_of_length_le (by omega)]

/-- Claim C3 (amended): after trimming a newest-first message log, the log
holds at most the configured capacity (cache.logPanel.size forced to at least
1000); when the TTL (features.log.entryDuration, in days) is positive no
retained entry is from a local calendar day more than TTL days before the
current day (the source evicts at whole-day granularity, not at `now` minus
TTL seconds); a TTL of 0 disables age-based eviction. -/
theorem c3_trim_invariants (v logTTL tz now : Int) (events : List LogEntry)
    (hsorted : List.Pairwise (fun a b => b.timestamp ≤ a.timestamp) events) :
    (trimEvents (confCacheSize v) logTTL tz now events).length ≤ confCacheSize v ∧
    1000 ≤ confCacheSize v ∧
    (0 < logTTL → ∀ e ∈ trimEvents (confCacheSize v) logTTL tz now events,
        daysSince tz now - daysSince tz e.timestamp ≤ logTTL) ∧
    (logTTL = 0 → trimEvents (confCacheSize v) logTTL tz now events =
        events.take (confCacheSize v)) := by
  have h1000 : 1000 ≤ confCacheSize v := by
    unfold confCacheSize
    by_cases h : (1000 : Int) ≤ v
    · rw [if_pos h]; omega
    · rw [if_neg h]; simp
  refine ⟨?_, h1000, ?_, ?_⟩
  · rcases trimEvents_length_le (confCacheSize v) logTTL tz now events with h | ⟨h, h2⟩
    · exact h
    · omega
  · intro httl
    exact trimEvents_ttl_bound (confCacheSize v) logTTL tz now events hsorted httl
  · intro h0
    subst h0
    exact trimEvents_ttl_zero (confCacheSize v) tz now events

/-- Claim C3 (counterexample to the original seconds-granularity reading):
with TTL 7 days, an entry 7 days and 99.5 minutes old — strictly older than
`now` minus the TTL — is retained, because its calendar-day distance is
exactly 7, not more than 7. -/
theorem c3_counterexample :
    trimEvents (confCacheSize 1000) 7 0 605800 [⟨100, "NOTICE", "x", "green"⟩] =
      [⟨100, "NOTICE", "x", "green"⟩] ∧
    (605800 : Int) - 100 > 7 * 86400 := by decide

/-- Witness for C3's amended theorem at a concrete sorted two-entry log. -/
theorem c3_witness :
    List.Pairwise (fun a b : LogEntry => b.timestamp ≤ a.timestamp)
      [⟨605000, "NOTICE", "a", "green"⟩, ⟨604000, "NOTICE", "b", "green"⟩] ∧
    ((trimEvents (confCacheSize 1000) 7 0 605800
        [⟨605000, "NOTICE", "a", "green"⟩, ⟨604000, "NOTICE", "b", "green"⟩]).length ≤
        confCacheSize 1000 ∧
      1000 ≤ confCacheSize 1000 ∧
      (0 < (7 : Int) → ∀ e ∈ trimEvents (confCacheSize 1000) 7 0 605800
          [⟨605000, "NOTICE", "a", "green"⟩, ⟨604000, "NOTICE", "b", "green"⟩],
          daysSince 0 605800 - daysSince 0 e.timestamp ≤ 7) ∧
      ((7 : Int) = 0 → trimEvents (confCacheSize 1000) 7 0 605800
          [⟨605000, "NOTICE", "a", "green"⟩, ⟨604000, "NOTICE", "b", "green"⟩] =
          [⟨605000, "NOTICE", "a", "green"⟩, ⟨604000, "NOTICE", "b", "green"⟩].take
            (confCacheSize 1000))) :=
  ⟨by decide,
   c3_trim_invariants 1000 7 0 605800
     [⟨605000, "NOTICE", "a", "green"⟩, ⟨604000, "NOTICE", "b", "green"⟩] (by decide)⟩

/-- Claim C4 (counterexample): with the calendar day held constant (day 2,
`now = 172800`, `tz = 0`), applying getDaybreaks to its own output on a
one-entry day-1 input does not return the same sequence — the cache is keyed
on the original input, so the annotated output misses it and gets re-annotated,
duplicating the marker. -/
theorem c4_counterexample :
    (getDaybreaks 0 172800 false
        (getDaybreaks 0 172800 false [⟨86400, "NOTICE", "x", "green"⟩] ⟨none, []⟩).1
        (getDaybreaks 0 172800 false [⟨86400, "NOTICE", "x", "green"⟩] ⟨none, []⟩).2).1 ≠
      (getDaybreaks 0 172800 false [⟨86400, "NOTICE", "x", "green"⟩] ⟨none, []⟩).1 := by decide

/-- Claim C4 (amended): re-invoking getDaybreaks on the same input list with
the calendar day unchanged returns the identical (cached) result and leaves
the cache untouched; the original claim's composition
`getDaybreaks (getDaybreaks E)` only coincides with this when no marker was
inserted, since the cache is keyed on the input, not the output. -/
theorem c4_daybreaks_same_input_cached (tz now : Int) (ig : Bool)
    (E : List LogEntry) (c : DaybreaksCache) :
    getDaybreaks tz now ig E ((getDaybreaks tz now ig E c).2) =
      getDaybreaks tz now ig E c := by
  by_cases hE : E = []
  · subst hE
    simp [getDaybreaks]
  · cases harg : c.args with
    | none =>
      have h1 : getDaybreaks tz now ig E c =
          (daybreaksLoop tz (daysSince tz now) E,
           ⟨some (E, daysSince tz now), daybreaksLoop tz (daysSince tz now) E⟩) := by
        simp [getDaybreaks, hE, harg]
      rw [h1]
      simp [getDaybreaks, hE]
    | some ad =>
      obtain ⟨a, d⟩ := ad
      by_cases hcond : a = E ∧ (ig = true ∨ d = daysSince tz now)
      · have h1 : getDaybreaks tz now ig E c = (c.result, c) := by
          simp [getDaybreaks, hE, harg, hcond]
        rw [h1]
        simp [getDaybreaks, hE, harg, hcond]
      · have h1 : getDaybreaks tz now ig E c =
            (daybreaksLoop tz (daysSince tz now) E,
             ⟨some (E, daysSince tz now), daybreaksLoop tz (daysSince tz now) E⟩) := by
          simp [getDaybreaks, hE, harg, hcond]
        rw [h1]
        simp [getDaybreaks, hE]

/-- Claim C5 (counterexample): a refresh pass with content and day unchanged
and the view not paused makes the code wait 5000 ms on the condition variable
(re-checking on wake), not sleep indefinitely as the claim's state machine
(`runStepClaim`) prescribes. -/
theorem c5_counterexample :
    runStep true true false 0 300 = SchedAction.wait 5000 ∧
    runStepClaim true true false 0 300 50 = SchedAction.sleepForever ∧
    runStep true true false 0 300 ≠ runStepClaim true true false 0 300 50 := by decide

/-- Claim C5 (amended): after a refresh, if buffer contents and calendar day
are unchanged since the last draw, or the view is paused, the thread waits
5 seconds on the condition variable (woken early by the next accepted event or
a halt, then re-checks) rather than sleeping indefinitely; otherwise, when the
time since the last refresh is below the refresh period it sleeps
`max(0.05 s, period − elapsed)` (at least the remaining period, enforcing the
maximum refresh rate) and when the period has already elapsed it redraws
immediately; it never sleeps unboundedly. -/
theorem c5_scheduler_decision (cu du p : Bool) (t r : Int) :
    (((cu && du) || p) = true → runStep cu du p t r = SchedAction.wait 5000) ∧
    (((cu && du) || p) = false → t < r →
      runStep cu du p t r = SchedAction.wait (intMax 50 (r - t)) ∧
      r - t ≤ intMax 50 (r - t) ∧ (50 : Int) ≤ intMax 50 (r - t)) ∧
    (((cu && du) || p) = false → r ≤ t → runStep cu du p t r = SchedAction.redraw) ∧
    runStep cu du p t r ≠ SchedAction.sleepForever := by
  have hmax : (50 : Int) ≤ intMax 50 (r - t) := by
    unfold intMax
    split_ifs with hh
    · omega
    · omega
  have hmax2 : r - t ≤ intMax 50 (r - t) := by
    unfold intMax
    split_ifs with hh
    · omega
    · omega
  refine ⟨?_, ?_, ?_, ?_⟩
  · intro h
    simp [runStep, h]
  · intro h ht
    refine ⟨?_, hmax2, hmax⟩
    simp only [runStep, h, Bool.false_eq_true, if_false, if_pos ht]
    rw [if_pos (show intMax 50 (r - t) ≠ 0 by omega)]
  · intro h ht
    simp [runStep, h, Int.not_lt.mpr ht]
  · intro hcontra
    unfold runStep at hcontra
    split_ifs at hcontra <;> try simp_all
    split at hcontra <;> simp_all

/-- Witness for C5's amended theorem: the unchanged-and-unpaused state makes
the scheduler wait 5000 ms. -/
theorem c5_witness :
    (((true && true) || false) = true) ∧
    runStep true true false 0 300 = SchedAction.wait 5000 :=
  ⟨by decide, (c5_scheduler_decision true true false 0 300).1 (by decide)⟩

/-- Claim C6 (confirmed): parsing the backfill line
`"Jul 15 18:29:48.806 [notice] Parsing GEOIP file."` with NOTICE among the
accepted categories yields exactly one entry with category NOTICE, message
`"Parsing GEOIP file."` and the timestamp for July 15 of the inferred year:
parsed with the placeholder year 2012, and reparsed with the year decremented
to 2011 exactly when the 2012 parse lands more than 60 seconds in the future
relative to `now`. -/
theorem c6_backfill_parse (now tz : Int) (cats : List String) (h : "NOTICE" ∈ cats) :
    getLogFileEntries cats ["Jul 15 18:29:48.806 [notice] Parsing GEOIP file."] none now tz =
      some [⟨(if mkLocalEpoch tz ⟨2012, 7, 15, 18, 29, 48⟩ > now + 60
              then mkLocalEpoch tz ⟨2011, 7, 15, 18, 29, 48⟩
              else mkLocalEpoch tz ⟨2012, 7, 15, 18, 29, 48⟩),
             "NOTICE", "Parsing GEOIP file.", "green"⟩] := by
  have hne : cats.isEmpty = false := by
    cases cats with
    | nil => simp at h
    | cons a as => rfl
  unfold getLogFileEntries
  rw [if_neg (by simp [hne])]
  rfl

/-- Witness for C6 at a concrete clock (`now` in 2017, `tz = 0`): the 2012
parse is in the past, so no year decrement happens and the timestamp is
1342376988 = 2012-07-15 18:29:48 UTC. -/
theorem c6_witness :
    ("NOTICE" ∈ ["NOTICE"]) ∧
    getLogFileEntries ["NOTICE"] ["Jul 15 18:29:48.806 [notice] Parsing GEOIP file."]
        none 1500000000 0 =
      some [⟨1342376988, "NOTICE", "Parsing GEOIP file.", "green"⟩] := by
  refine ⟨by decide, ?_⟩
  rw [c6_backfill_parse 1500000000 0 ["NOTICE"] (by decide)]
  decide

/-- Claim C7 (counterexample): the dated display string prints month and day
unpadded (`"%i/%i/%i"`), so for 1970-01-01 it is `"1/1/1970 …"`, not the
claimed `"MM/DD/YYYY …"` zero-padded form (`displayDatedClaim`). -/
theorem c7_counterexample :
    (getDisplayMessage 0 ⟨0, "NOTICE", "hi", "green"⟩ none true).1 =
      "1/1/1970 00:00:00 [NOTICE] hi" ∧
    displayDatedClaim 0 ⟨0, "NOTICE", "hi", "green"⟩ =
      "01/01/1970 00:00:00 [NOTICE] hi" ∧
    (getDisplayMessage 0 ⟨0, "NOTICE", "hi", "green"⟩ none true).1 ≠
      displayDatedClaim 0 ⟨0, "NOTICE", "hi", "green"⟩ := by decide

/-- Claim C7 (amended): getDisplayMessage without the date flag returns the
one-line `"HH:MM:SS [category] message"` string and caches it after the first
computation (a nonempty cached value is returned as-is), while the date flag
returns the dated variant — month/day/year unpadded, `"M/D/YYYY HH:MM:SS
[category] message"` — computed fresh on every call, never touching the
cache. -/
theorem c7_display_cache (tz : Int) (e : LogEntry) (s : String) (hs : s ≠ "") :
    getDisplayMessage tz e none false = (displayUndated tz e, some (displayUndated tz e)) ∧
    getDisplayMessage tz e (some s) false = (s, some s) ∧
    ∀ cached : Option String, getDisplayMessage tz e cached true = (displayDated tz e, cached) := by
  refine ⟨rfl, ?_, fun cached => rfl⟩
  simp [getDisplayMessage, hs]

/-- Witness for C7's amended theorem with a concrete nonempty cached string. -/
theorem c7_witness :
    (("cached" : String) ≠ "") ∧
    (getDisplayMessage 0 ⟨0, "NOTICE", "hi", "green"⟩ none false =
        (displayUndated 0 ⟨0, "NOTICE", "hi", "green"⟩,
         some (displayUndated 0 ⟨0, "NOTICE", "hi", "green"⟩)) ∧
      getDisplayMessage 0 ⟨0, "NOTICE", "hi", "green"⟩ (some "cached") false =
        ("cached", some "cached") ∧
      ∀ cached : Option String,
        getDisplayMessage 0 ⟨0, "NOTICE", "hi", "green"⟩ cached true =
          (displayDated 0 ⟨0, "NOTICE", "hi", "green"⟩, cached)) :=
  ⟨by decide, c7_display_cache 0 ⟨0, "NOTICE", "hi", "green"⟩ "cached" (by decide)⟩

/-- Claim C8 (confirmed): every index the duplicate scan collects for a probed
entry points at an entry of the same category, and no DAYBREAK entry stands
between the probed entry and the collected one — the scan stops at the first
day marker and only matches equal categories, so entries are never merged
across a day boundary or across categories. -/
theorem c8_no_merge_across_daybreak_or_category (common : String → List String)
    (e : LogEntry) (l : List LogEntry) (i : Nat)
    (h : i ∈ isDuplicateIndices common e l) :
    (∃ f, l[i]? = some f ∧ f.type = e.type) ∧
    ∀ g ∈ l.take i, g.type ≠ DAYBREAK_EVENT := by
  have hspec := isDuplicateIndicesAux_spec common e l 0 i h
  simpa using hspec

/-- Witness for C8: index 0 is collected for two equal NOTICE entries, and the
theorem's conclusions hold there. -/
theorem c8_witness :
    (0 ∈ isDuplicateIndices (fun _ => []) ⟨0, "NOTICE", "x", "green"⟩
        [⟨1, "NOTICE", "x", "green"⟩]) ∧
    ((∃ f, ([⟨1, "NOTICE", "x", "green"⟩] : List LogEntry)[0]? = some f ∧
        f.type = "NOTICE") ∧
      ∀ g ∈ ([⟨1, "NOTICE", "x", "green"⟩] : List LogEntry).take 0,
        g.type ≠ DAYBREAK_EVENT) :=
  ⟨by decide,
   c8_no_merge_across_daybreak_or_category (fun _ => []) ⟨0, "NOTICE", "x", "green"⟩
     [⟨1, "NOTICE", "x", "green"⟩] 0 (by decide)⟩

/-- Claim C9 (counterexample): on an input that itself contains a DAYBREAK
entry, removing all DAYBREAK entries from the getDaybreaks output does not
return the input (the input's own marker is removed too), so the round-trip
fails without the no-marker precondition. -/
theorem c9_counterexample :
    removeDaybreaks (getDaybreaks 0 86400 false
        [⟨86400, "DAYBREAK", "", "white"⟩] ⟨none, []⟩).1 = [] ∧
    ([⟨86400, "DAYBREAK", "", "white"⟩] : List LogEntry) ≠ [] := by decide

/-- Claim C9 (amended): for every non-empty event list E containing no
DAYBREAK-category entries, getDaybreaks (with a well-formed cache) returns E
in its original relative order with only synthetic DAYBREAK entries inserted:
E is a sublist of the output and filtering the DAYBREAK entries out of the
output yields exactly E. -/
theorem c9_daybreaks_preserve (tz now : Int) (ig : Bool) (E : List LogEntry)
    (c : DaybreaksCache) (hWF : DaybreaksCacheWF tz c) (hne : E ≠ [])
    (hnb : ∀ e ∈ E, e.type ≠ DAYBREAK_EVENT) :
    removeDaybreaks (getDaybreaks tz now ig E c).1 = E ∧
    E.Sublist (getDaybreaks tz now ig E c).1 := by
  cases harg : c.args with
  | none =>
    have h1 : (getDaybreaks tz now ig E c).1 = daybreaksLoop tz (daysSince tz now) E := by
      simp [getDaybreaks, hne, harg]
    rw [h1]
    exact ⟨daybreaksLoop_filter tz E _ hnb, daybreaksLoop_sublist tz E _⟩
  | some ad =>
    obtain ⟨a, d⟩ := ad
    by_cases hcond : a = E ∧ (ig = true ∨ d = daysSince tz now)
    · have h1 : (getDaybreaks tz now ig E c).1 = daybreaksLoop tz d E := by
        have hr := hWF a d harg
        simp [getDaybreaks, hne, harg, hcond, hr, hcond.1]
    
      rw [h1]
      exact ⟨daybreaksLoop_filter tz E _ hnb, daybreaksLoop_sublist tz E _⟩
    · have h1 : (getDaybreaks tz now ig E c).1 = daybreaksLoop tz (daysSince tz now) E := by
        simp [getDaybreaks, hne, harg, hcond]
      rw [h1]
      exact ⟨daybreaksLoop_filter tz E _ hnb, daybreaksLoop_sublist tz E _⟩

/-- Witness for C9 on a concrete one-entry list and the empty cache. -/
theorem c9_witness :
    DaybreaksCacheWF 0 ⟨none, []⟩ ∧
    ([⟨86400, "NOTICE", "x", "green"⟩] : List LogEntry) ≠ [] ∧
    (∀ e ∈ ([⟨86400, "NOTICE", "x", "green"⟩] : List LogEntry),
      e.type ≠ DAYBREAK_EVENT) ∧
    (removeDaybreaks (getDaybreaks 0 172800 false
        [⟨86400, "NOTICE", "x", "green"⟩] ⟨none, []⟩).1 =
      [⟨86400, "NOTICE", "x", "green"⟩] ∧
    ([⟨86400, "NOTICE", "x", "green"⟩] : List LogEntry).Sublist
      (getDaybreaks 0 172800 false [⟨86400, "NOTICE", "x", "green"⟩] ⟨none, []⟩).1) :=
  ⟨fun _ _ h => Option.noConfusion h, by decide, by decide,
   c9_daybreaks_preserve 0 172800 false [⟨86400, "NOTICE", "x", "green"⟩] ⟨none, []⟩
     (fun _ _ h => Option.noConfusion h) (by decide) (by decide)⟩
